import Mathlib

/-!
Shallow embedding of the Klondike solitaire rule engine of this repository:
deck construction and shuffling (src/utils/deck.ts), move validation
(src/utils/validation.ts), and the state transitions of the game board
(handleDrawCard, handleDrop and the win-check effect of GameBoard.tsx).
JavaScript arrays are modelled as Lists, the numeric `faceUpCount` field as
Int (it is compared against differences that can be negative in the source),
and operations that can dereference `undefined` return Option.
-/

namespace Soltrain

/-- `Suit` of src/types/card.ts: `"hearts" | "diamonds" | "clubs" | "spades"`. -/
inductive Suit
  | hearts | diamonds | clubs | spades
deriving DecidableEq

/-- `Rank` of src/types/card.ts: `"A" | "2" | ... | "10" | "J" | "Q" | "K"`. -/
inductive Rank
  | A | n2 | n3 | n4 | n5 | n6 | n7 | n8 | n9 | n10 | J | Q | K
deriving DecidableEq

/-- The string each `Suit` literal denotes in the source. -/
def suitName : Suit → String
  | .hearts => "hearts"
  | .diamonds => "diamonds"
  | .clubs => "clubs"
  | .spades => "spades"

/-- The string each `Rank` literal denotes in the source. -/
def rankName : Rank → String
  | .A => "A"
  | .n2 => "2"
  | .n3 => "3"
  | .n4 => "4"
  | .n5 => "5"
  | .n6 => "6"
  | .n7 => "7"
  | .n8 => "8"
  | .n9 => "9"
  | .n10 => "10"
  | .J => "J"
  | .Q => "Q"
  | .K => "K"

/-- `CardData` of src/types/card.ts: suit, rank, and a unique string id. -/
structure CardData where
  suit : Suit
  rank : Rank
  id : String
deriving DecidableEq

/-- `TableauPile` of src/types/card.ts: an ordered card sequence plus the
number of face-up cards counted from the top.  The field is a JS `number`
and the source manipulates it with subtractions that can go negative before
being clamped, so it is embedded as `Int`. -/
structure TableauPile where
  cards : List CardData
  faceUpCount : Int
deriving DecidableEq

/-- `GameState` of src/types/card.ts. -/
structure GameState where
  tableau : List TableauPile
  foundation : List (List CardData)
  stock : List CardData
  waste : List CardData
deriving DecidableEq

/-- The `suits` array of src/utils/deck.ts. -/
def suits : List Suit := [.hearts, .diamonds, .clubs, .spades]

/-- The `ranks` array of src/utils/deck.ts. -/
def ranks : List Rank :=
  [.A, .n2, .n3, .n4, .n5, .n6, .n7, .n8, .n9, .n10, .J, .Q, .K]

/-- The card object literal pushed by `createDeck`:
`{ suit, rank, id: suit + "-" + rank }`. -/
def mkCard (s : Suit) (r : Rank) : CardData :=
  { suit := s, rank := r, id := suitName s ++ "-" ++ rankName r }

/-- `createDeck` of src/utils/deck.ts: for each suit, for each rank, push a
card; 52 cards in canonical order. -/
def createDeck : List CardData :=
  suits.flatMap fun s => ranks.map fun r => mkCard s r

/-- One iteration's array swap `[a[i], a[j]] = [a[j], a[i]]` of
`shuffleDeck`: exchange the elements at positions `i` and `j` (indices are
always in bounds in the source, where `j = floor(random() * (i + 1))`). -/
def swapAt (l : List CardData) (i j : Nat) : List CardData :=
  match l[i]?, l[j]? with
  | some a, some b => (l.set i b).set j a
  | _, _ => l

/-- The Fisher-Yates loop of `shuffleDeck`: `for (i = len - 1; i > 0; i--)`
swap position `i` with position `rand i`, where `rand i` models
`Math.floor(Math.random() * (i + 1))`. -/
def fyLoop (rand : Nat → Nat) : List CardData → Nat → List CardData
  | arr, 0 => arr
  | arr, i + 1 => fyLoop rand (swapAt arr (i + 1) (rand (i + 1))) i

/-- `shuffleDeck` of src/utils/deck.ts, with the stream of random index
choices passed in explicitly.  The source first copies its input
(`[...deck]`), so the input deck is never mutated; in this embedding purity
is by construction. -/
def shuffleDeck (deck : List CardData) (rand : Nat → Nat) : List CardData :=
  fyLoop rand deck (deck.length - 1)

/-- The dealing loop of `dealCards`: for each pile size `n` in order, take
the next `n` cards of the deck as one tableau pile with `faceUpCount = 1`;
return the piles and the undealt remainder of the deck. -/
def dealPiles (deck : List CardData) : List Nat → List TableauPile × List CardData
  | [] => ([], deck)
  | n :: rest =>
    let p := dealPiles (deck.drop n) rest
    ({ cards := deck.take n, faceUpCount := 1 } :: p.1, p.2)

/-- `dealCards` of src/utils/deck.ts: shuffle a fresh deck, deal 7 tableau
piles of sizes 1..7 consuming the deck in order, remaining cards become the
stock, foundations are 4 empty piles, waste is empty. -/
def dealCards (rand : Nat → Nat) : GameState :=
  let deck := shuffleDeck createDeck rand
  let p := dealPiles deck [1, 2, 3, 4, 5, 6, 7]
  { tableau := p.1, foundation := [[], [], [], []], stock := p.2, waste := [] }

/-- The `rankOrder` array of src/utils/validation.ts (its own copy of the
rank list). -/
def rankOrder : List Rank :=
  [.A, .n2, .n3, .n4, .n5, .n6, .n7, .n8, .n9, .n10, .J, .Q, .K]

/-- `getRankValue` of src/utils/validation.ts: `rankOrder.indexOf(rank) + 1`
(A=1, 2=2, ..., 10=10, J=11, Q=12, K=13). -/
def getRankValue (r : Rank) : Nat := rankOrder.indexOf r + 1

/-- `isRed` of src/utils/validation.ts. -/
def isRed (card : CardData) : Bool :=
  card.suit == .hearts || card.suit == .diamonds

/-- `isBlack` of src/utils/validation.ts. -/
def isBlack (card : CardData) : Bool :=
  card.suit == .clubs || card.suit == .spades

/-- `alternatesColor` of src/utils/validation.ts. -/
def alternatesColor (card1 card2 : CardData) : Bool :=
  (isRed card1 && isBlack card2) || (isBlack card1 && isRed card2)

/-- `canPlaceOnTableau` of src/utils/validation.ts.  The source reads
`cardsToPlace[0]` with no emptiness check; on an empty run that index is
`undefined` and the subsequent `.rank` access throws, which this embedding
renders as `none`.  On a non-empty run the result is `some` of the verdict:
Kings only on an empty pile, otherwise one rank lower than the target's top
card with alternating colors. -/
def canPlaceOnTableau (cardsToPlace targetPile : List CardData) : Option Bool :=
  match cardsToPlace.head? with
  | none => none
  | some cardToPlace =>
    if targetPile.length = 0 then
      some (cardToPlace.rank == .K)
    else
      match targetPile.getLast? with
      | none => none
      | some targetCard =>
        let cardValue := getRankValue cardToPlace.rank
        let targetValue := getRankValue targetCard.rank
        let isOneLower := cardValue == targetValue - 1
        some (isOneLower && alternatesColor cardToPlace targetCard)

/-- `canPlaceOnFoundation` of src/utils/validation.ts: any run whose length
is not 1 is rejected before any indexing, so the function is total; a single
card goes on an empty pile iff it is an Ace, otherwise it must match the top
card's suit and be exactly one rank higher. -/
def canPlaceOnFoundation (cardsToPlace targetPile : List CardData) : Bool :=
  match cardsToPlace with
  | [cardToPlace] =>
    if targetPile.length = 0 then
      cardToPlace.rank == .A
    else
      match targetPile.getLast? with
      | none => false
      | some targetCard =>
        if cardToPlace.suit != targetCard.suit then false
        else getRankValue cardToPlace.rank == getRankValue targetCard.rank + 1
  | _ => false

/-- `handleDrawCard` of GameBoard.tsx (identical in every board iteration):
if the stock is non-empty, pop its top card and push it onto the waste; else
if the waste is non-empty, the stock becomes the waste reversed and the
waste is cleared; else nothing changes. -/
def drawFromStock (s : GameState) : GameState :=
  match s.stock.getLast? with
  | some card => { s with stock := s.stock.dropLast, waste := s.waste ++ [card] }
  | none =>
    if s.waste.length > 0 then
      { s with stock := s.waste.reverse, waste := [] }
    else s

/-- The `source` field of the `DragState` of GameBoard.tsx: a tableau column
with the index of the first dragged card, or the waste pile. -/
inductive DragSource
  | tableau (columnIndex : Nat) (cardIndex : Nat)
  | waste
deriving DecidableEq

/-- The part of the `DragState` of GameBoard.tsx that `handleDrop` consumes:
the source descriptor and the dragged cards. -/
structure Drag where
  source : DragSource
  cards : List CardData

/-- A `DropZone`'s `type` and `index` of GameBoard.tsx (the geometry fields
are out of scope). -/
inductive ZoneRef
  | tableau (index : Nat)
  | foundation (index : Nat)
deriving DecidableEq

/-- `Array.prototype.splice(start, count)` removal as used on the source
pile in `handleDrop`: drop `count` elements starting at `start`. -/
def spliceOut (l : List CardData) (start count : Nat) : List CardData :=
  l.take start ++ l.drop (start + count)

/-- The validation step of `handleDrop`: dispatch on the drop zone's type to
`canPlaceOnTableau` or `canPlaceOnFoundation` against the indexed pile.
`none` models a thrown exception (out-of-bounds pile index, or
`canPlaceOnTableau` on an empty run). -/
def dropIsValid (s : GameState) (cards : List CardData) : ZoneRef → Option Bool
  | .tableau i => s.tableau[i]?.bind fun target => canPlaceOnTableau cards target.cards
  | .foundation i => s.foundation[i]?.map fun target => canPlaceOnFoundation cards target

/-- The "Remove cards from source" step of `handleDrop`.  For a tableau
source: splice the dragged cards out, decrement `faceUpCount` by the number
moved when the first dragged card was face-up (clamping at 0), then flip the
new top card face-up if no face-up cards remain in a non-empty pile.  For a
waste source: pop the top card. -/
def removeFromSource (s : GameState) (drag : Drag) : Option GameState :=
  match drag.source with
  | .waste => some { s with waste := s.waste.dropLast }
  | .tableau col cardIndex =>
    s.tableau[col]?.map fun pile =>
      let numCards := pile.cards.length
      let numCardsBeingMoved := drag.cards.length
      let isFaceUp : Bool := (cardIndex : Int) ≥ (numCards : Int) - pile.faceUpCount
      let newCards := spliceOut pile.cards cardIndex numCardsBeingMoved
      let fc1 : Int :=
        if isFaceUp && pile.faceUpCount > 0 then
          let d := pile.faceUpCount - (numCardsBeingMoved : Int)
          if d < 0 then 0 else d
        else pile.faceUpCount
      let fc2 : Int := if newCards.length > 0 && fc1 == 0 then 1 else fc1
      { s with tableau := s.tableau.set col { cards := newCards, faceUpCount := fc2 } }

/-- The "Add cards to destination" step of `handleDrop`: a tableau
destination receives the whole run appended with `faceUpCount` increased by
the run's length; a foundation destination receives `cards[0]` (on the
valid path the run always has exactly one card). -/
def addToDest (s : GameState) (cards : List CardData) : ZoneRef → Option GameState
  | .tableau i =>
    s.tableau[i]?.map fun pile =>
      { s with
        tableau := s.tableau.set i
          { cards := pile.cards ++ cards
            faceUpCount := pile.faceUpCount + (cards.length : Int) } }
  | .foundation i =>
    s.foundation[i]?.bind fun pile =>
      cards.head?.map fun c => { s with foundation := s.foundation.set i (pile ++ [c]) }

/-- `handleDrop` of GameBoard.tsx, the move applier: validate the drop with
the matching placement predicate; an invalid drop returns the state
unchanged; a valid drop removes the run from the source and inserts it at
the destination. -/
def handleDrop (s : GameState) (drag : Drag) (zone : ZoneRef) : Option GameState :=
  match dropIsValid s drag.cards zone with
  | none => none
  | some false => some s
  | some true => (removeFromSource s drag).bind fun s1 => addToDest s1 drag.cards zone

/-- The win-check effect of the game board (src/unnamed/part_002, lines
81-106), as the predicate it evaluates on the state: all 52 cards counted
across the foundations, or every tableau pile empty or fully face-up with
stock and waste both empty. -/
def checkWin (s : GameState) : Bool :=
  let totalFoundationCards := s.foundation.foldl (fun sum pile => sum + pile.length) 0
  if totalFoundationCards == 52 then true
  else
    let allTableauFaceUp := s.tableau.all fun pile =>
      pile.cards.length == 0 || pile.faceUpCount == (pile.cards.length : Int)
    let stockAndWasteEmpty := s.stock.length == 0 && s.waste.length == 0
    allTableauFaceUp && stockAndWasteEmpty

/-- All cards of a state, in reading order: tableau piles, foundations,
stock, waste. -/
def cardsOfList (s : GameState) : List CardData :=
  (s.tableau.map TableauPile.cards).flatten ++ s.foundation.flatten ++ s.stock ++ s.waste

/-- The multiset of all cards held anywhere in a state. -/
def cardsOf (s : GameState) : Multiset CardData := (cardsOfList s : Multiset CardData)

/-- The state holds exactly one full 52-card deck: its card multiset is that
of `createDeck` (one card per (suit, rank) pair). -/
def isFullDeck (s : GameState) : Prop := cardsOf s = (createDeck : Multiset CardData)

/-- How the gesture layer of GameBoard.tsx builds the `DragState` it later
hands to `handleDrop`: a tableau drag takes `pile.cards.slice(cardIndex)`
(the suffix from `cardIndex`), a waste drag takes exactly the waste's top
card. -/
def dragWellFormed (s : GameState) (drag : Drag) : Prop :=
  match drag.source with
  | .tableau col idx => ∃ pile, s.tableau[col]? = some pile ∧ drag.cards = pile.cards.drop idx
  | .waste => ∃ c, s.waste.getLast? = some c ∧ drag.cards = [c]

/-! ### Helper lemmas -/

/-- Updating one position of a list exchanges the old element for the new
one in its multiset of elements. -/
lemma coe_set_add (l : List CardData) (i : Nat) (x : CardData) (h : i < l.length) :
    (↑(l.set i x) : Multiset CardData) + {l[i]} = ↑l + {x} := by
  conv_rhs => rw [← List.take_append_drop i l, ← List.getElem_cons_drop l i h]
  rw [List.set_eq_take_append_cons_drop, if_pos h]
  simp only [← Multiset.coe_add, ← Multiset.cons_coe, ← Multiset.singleton_add]
  abel

/-- Updating one inner list of a list of lists exchanges the old inner
list's elements for the new one's in the flattened multiset. -/
lemma coe_flatten_set_add {α : Type} (L : List (List α)) (i : Nat) (x : List α)
    (h : i < L.length) :
    (↑(L.set i x).flatten : Multiset α) + ↑L[i] = ↑L.flatten + ↑x := by
  conv_rhs => rw [← List.take_append_drop i L, ← List.getElem_cons_drop L i h]
  rw [List.set_eq_take_append_cons_drop, if_pos h]
  simp only [List.flatten_append, List.flatten_cons]
  simp only [← Multiset.coe_add]
  abel

/-- One array swap of the Fisher-Yates loop keeps the multiset of elements. -/
lemma swapAt_coe (l : List CardData) (i j : Nat) :
    (↑(swapAt l i j) : Multiset CardData) = ↑l := by
  unfold swapAt
  cases hi : l[i]? with
  | none => rfl
  | some a =>
    cases hj : l[j]? with
    | none => rfl
    | some b =>
      obtain ⟨hi', ha⟩ := List.getElem?_eq_some_iff.mp hi
      obtain ⟨hj', hb⟩ := List.getElem?_eq_some_iff.mp hj
      have hj'' : j < (l.set i b).length := by rw [List.length_set]; exact hj'
      have e1 : (↑(l.set i b) : Multiset CardData) + {a} = ↑l + {b} := by
        rw [← ha]; exact coe_set_add l i b hi'
      have hgb : (l.set i b)[j] = b := by
        rw [List.getElem_set]
        by_cases hij : i = j
        · rw [if_pos hij]
        · rw [if_neg hij]; exact hb
      have e2 : (↑((l.set i b).set j a) : Multiset CardData) + {b} = ↑(l.set i b) + {a} := by
        have := coe_set_add (l.set i b) j a hj''
        rwa [hgb] at this
      exact add_right_cancel (e2.trans e1)

/-- The whole Fisher-Yates loop keeps the multiset of elements. -/
lemma fyLoop_coe (rand : Nat → Nat) :
    ∀ (n : Nat) (arr : List CardData), (↑(fyLoop rand arr n) : Multiset CardData) = ↑arr
  | 0, arr => rfl
  | n + 1, arr => by
    rw [fyLoop, fyLoop_coe rand n, swapAt_coe]

/-! ### C9: shuffle is a pure permutation -/

/-- C9.  For every input deck and every stream of index choices of the
Fisher-Yates loop, `shuffleDeck` returns a list with exactly the same
multiset of cards as its input: the same length, a permutation.  (The
source also never mutates its input, copying it with `[...deck]` first; in
this functional embedding that purity holds by construction.) -/
theorem shuffleDeck_perm (deck : List CardData) (rand : Nat → Nat) :
    (↑(shuffleDeck deck rand) : Multiset CardData) = ↑deck ∧
      (shuffleDeck deck rand).Perm deck ∧
      (shuffleDeck deck rand).length = deck.length := by
  have h : (↑(shuffleDeck deck rand) : Multiset CardData) = ↑deck := fyLoop_coe ..
  have hp : (shuffleDeck deck rand).Perm deck := Multiset.coe_eq_coe.mp h
  exact ⟨h, hp, hp.length_eq⟩

/-! ### C7: deal layout -/

/-- The dealing loop consumes the deck in order: the dealt piles followed by
the remainder reassemble the deck. -/
lemma dealPiles_flatten :
    ∀ (sizes : List Nat) (deck : List CardData),
      ((dealPiles deck sizes).1.map TableauPile.cards).flatten ++ (dealPiles deck sizes).2 = deck
  | [], deck => rfl
  | n :: rest, deck => by
    rw [dealPiles]
    simp only [List.map_cons, List.flatten_cons, List.append_assoc]
    rw [dealPiles_flatten rest (deck.drop n)]
    exact List.take_append_drop n deck

/-- Every dealt pile starts with `faceUpCount = 1`. -/
lemma dealPiles_faceUp :
    ∀ (sizes : List Nat) (deck : List CardData),
      (dealPiles deck sizes).1.map TableauPile.faceUpCount = sizes.map fun _ => (1 : Int)
  | [], _ => rfl
  | n :: rest, deck => by
    rw [dealPiles]
    simp only [List.map_cons]
    rw [dealPiles_faceUp rest (deck.drop n)]

/-- The undealt remainder is the deck with the dealt prefix dropped. -/
lemma dealPiles_snd :
    ∀ (sizes : List Nat) (deck : List CardData),
      (dealPiles deck sizes).2 = deck.drop sizes.sum
  | [], deck => by simp [dealPiles]
  | n :: rest, deck => by
    rw [dealPiles]
    show (dealPiles (deck.drop n) rest).2 = _
    rw [dealPiles_snd rest (deck.drop n), List.drop_drop, List.sum_cons, Nat.add_comm]

/-- When the deck is long enough, the dealt piles have exactly the requested
sizes. -/
lemma dealPiles_lengths :
    ∀ (sizes : List Nat) (deck : List CardData), sizes.sum ≤ deck.length →
      (dealPiles deck sizes).1.map (fun p => p.cards.length) = sizes
  | [], _, _ => rfl
  | n :: rest, deck, h => by
    rw [List.sum_cons] at h
    rw [dealPiles]
    simp only [List.map_cons]
    have h1 : n ≤ deck.length := le_trans (Nat.le_add_right n rest.sum) h
    have h2 : rest.sum ≤ (deck.drop n).length := by
      rw [List.length_drop]; omega
    rw [List.length_take, Nat.min_eq_left h1, dealPiles_lengths rest (deck.drop n) h2]

/-- `dealCards` written out: deal the shuffled deck into piles of sizes
1..7, the remainder is the stock. -/
lemma dealCards_eq (rand : Nat → Nat) :
    dealCards rand =
      { tableau := (dealPiles (shuffleDeck createDeck rand) [1, 2, 3, 4, 5, 6, 7]).1
        foundation := [[], [], [], []]
        stock := (dealPiles (shuffleDeck createDeck rand) [1, 2, 3, 4, 5, 6, 7]).2
        waste := [] } := rfl

/-- C7.  `dealCards` deals piles of sizes 1..7 taken in order from the
shuffled deck (their concatenation followed by the stock is exactly the
post-shuffle deck), every pile starts with `faceUpCount = 1`, the stock is
the remaining 24 cards in post-shuffle order, the waste is empty and the 4
foundation piles are empty; there is no failure case. -/
theorem dealCards_layout (rand : Nat → Nat) :
    ((dealCards rand).tableau.map TableauPile.cards).flatten ++ (dealCards rand).stock
        = shuffleDeck createDeck rand ∧
      (dealCards rand).tableau.map (fun p => p.cards.length) = [1, 2, 3, 4, 5, 6, 7] ∧
      (dealCards rand).tableau.map TableauPile.faceUpCount = [1, 1, 1, 1, 1, 1, 1] ∧
      (dealCards rand).stock = (shuffleDeck createDeck rand).drop 28 ∧
      (dealCards rand).stock.length = 24 ∧
      (dealCards rand).waste = [] ∧
      (dealCards rand).foundation = [[], [], [], []] := by
  have hlen : (shuffleDeck createDeck rand).length = 52 := by
    rw [(shuffleDeck_perm createDeck rand).2.2]
    rfl
  rw [dealCards_eq]
  generalize shuffleDeck createDeck rand = D at hlen ⊢
  refine ⟨dealPiles_flatten _ _, ?_, dealPiles_faceUp _ _, ?_, ?_, rfl, rfl⟩
  · exact dealPiles_lengths [1, 2, 3, 4, 5, 6, 7] _ (by rw [hlen]; norm_num)
  · rw [dealPiles_snd]
    norm_num
  · rw [dealPiles_snd, List.length_drop, hlen]
    norm_num

/-! ### C4, C5, C10: the placement validators -/

/-- C4.  For every non-empty run, `canPlaceOnTableau` accepts exactly when
either the target pile is empty and the run's first card is a King, or the
target is non-empty and the run's first card is one rank value below the
target's top card with the two cards of opposite colors (one of
hearts/diamonds, the other of clubs/spades); and `getRankValue` realizes
the mapping A=1, ..., 10=10, J=11, Q=12, K=13 on the rank order. -/
theorem canPlaceOnTableau_rule :
    (∀ (c : CardData) (rest targetPile : List CardData),
      canPlaceOnTableau (c :: rest) targetPile = some true ↔
        ((targetPile = [] ∧ c.rank = Rank.K) ∨
          (∃ t, targetPile.getLast? = some t ∧
            getRankValue c.rank = getRankValue t.rank - 1 ∧
            (((c.suit = Suit.hearts ∨ c.suit = Suit.diamonds) ∧
                (t.suit = Suit.clubs ∨ t.suit = Suit.spades)) ∨
              ((c.suit = Suit.clubs ∨ c.suit = Suit.spades) ∧
                (t.suit = Suit.hearts ∨ t.suit = Suit.diamonds)))))) ∧
      rankOrder.map getRankValue = [1, 2, 3, 4, 5, 6, 7, 8, 9, 10, 11, 12, 13] := by
  refine ⟨?_, by decide⟩
  intro c rest targetPile
  cases targetPile with
  | nil =>
    simp [canPlaceOnTableau]
  | cons hd tl =>
    have hne : hd :: tl ≠ ([] : List CardData) := by simp
    obtain ⟨t, ht⟩ : ∃ t, (hd :: tl).getLast? = some t := by
      cases hl : (hd :: tl).getLast? with
      | none => exact absurd (List.getLast?_eq_none_iff.mp hl) hne
      | some t => exact ⟨t, rfl⟩
    rw [canPlaceOnTableau]
    simp only [List.head?_cons, List.length_cons, ht]
    constructor
    · intro h
      rw [if_neg (by omega)] at h
      simp only [Option.some.injEq, Bool.and_eq_true, beq_iff_eq, alternatesColor,
        Bool.or_eq_true, isRed, isBlack] at h
      refine Or.inr ⟨t, rfl, h.1, ?_⟩
      rcases h.2 with ⟨h1, h2⟩ | ⟨h1, h2⟩
      · exact Or.inl ⟨by simpa using h1, by simpa using h2⟩
      · exact Or.inr ⟨by simpa using h1, by simpa using h2⟩
    · rintro (⟨habs, _⟩ | ⟨t', ht', hv, hcol⟩)
      · exact absurd habs (by simp)
      · obtain rfl : t = t' := by injection ht'
        rw [if_neg (by omega)]
        simp only [Option.some.injEq, Bool.and_eq_true, beq_iff_eq, alternatesColor,
          Bool.or_eq_true, isRed, isBlack]
        refine ⟨hv, ?_⟩
        rcases hcol with ⟨h1, h2⟩ | ⟨h1, h2⟩
        · exact Or.inl ⟨by simpa using h1, by simpa using h2⟩
        · exact Or.inr ⟨by simpa using h1, by simpa using h2⟩

/-- C5.  `canPlaceOnFoundation` rejects every run whose length is not 1
outright, and accepts a single card exactly when either the target pile is
empty and the card is an Ace, or the card matches the target's top card's
suit and is exactly one rank value above it. -/
theorem canPlaceOnFoundation_rule :
    (∀ run targetPile : List CardData, run.length ≠ 1 →
      canPlaceOnFoundation run targetPile = false) ∧
    (∀ (c : CardData) (targetPile : List CardData),
      canPlaceOnFoundation [c] targetPile = true ↔
        ((targetPile = [] ∧ c.rank = Rank.A) ∨
          (∃ t, targetPile.getLast? = some t ∧ c.suit = t.suit ∧
            getRankValue c.rank = getRankValue t.rank + 1))) := by
  constructor
  · intro run targetPile h
    match run with
    | [] => rfl
    | [c] => simp at h
    | a :: b :: rest => rfl
  · intro c targetPile
    cases targetPile with
    | nil =>
      simp [canPlaceOnFoundation]
    | cons hd tl =>
      have hne : hd :: tl ≠ ([] : List CardData) := by simp
      obtain ⟨t, ht⟩ : ∃ t, (hd :: tl).getLast? = some t := by
        cases hl : (hd :: tl).getLast? with
        | none => exact absurd (List.getLast?_eq_none_iff.mp hl) hne
        | some t => exact ⟨t, rfl⟩
      rw [canPlaceOnFoundation]
      simp only [List.length_cons, ht]
      rw [if_neg (by omega)]
      constructor
      · intro h
        by_cases hs : c.suit = t.suit
        · rw [if_neg (by simp [hs])] at h
          exact Or.inr ⟨t, rfl, hs, by simpa using h⟩
        · rw [if_pos (by simp [hs])] at h
          exact absurd h (by simp)
      · rintro (⟨habs, _⟩ | ⟨t', ht', hs, hv⟩)
        · exact absurd habs (by simp)
        · obtain rfl : t = t' := by injection ht'
          rw [if_neg (by simp [hs])]
          simpa using hv

/-- C10.  `canPlaceOnTableau` reads the run's first element unguarded: on an
empty run the access misses (`run[0]` is undefined) and the call does not
return a verdict, while on every non-empty run it totally returns a
boolean; `canPlaceOnFoundation`, by contrast, rejects an empty run (length
not 1) before any indexing, returning `false`. -/
theorem canPlaceOnTableau_requires_nonempty_run :
    (∀ targetPile : List CardData, canPlaceOnTableau [] targetPile = none) ∧
    (∀ (c : CardData) (rest targetPile : List CardData),
      (canPlaceOnTableau (c :: rest) targetPile).isSome = true) ∧
    (∀ targetPile : List CardData, canPlaceOnFoundation [] targetPile = false) := by
  refine ⟨fun _ => rfl, ?_, fun _ => rfl⟩
  intro c rest targetPile
  cases targetPile with
  | nil => rfl
  | cons hd tl =>
    obtain ⟨t, ht⟩ : ∃ t, (hd :: tl).getLast? = some t := by
      cases hl : (hd :: tl).getLast? with
      | none => exact absurd (List.getLast?_eq_none_iff.mp hl) (by simp)
      | some t => exact ⟨t, rfl⟩
    rw [canPlaceOnTableau]
    simp only [List.head?_cons, List.length_cons, ht]
    rw [if_neg (by omega)]
    rfl

/-! ### C6: drawFromStock case analysis -/

/-- C6.  `drawFromStock` on a non-empty stock pops the stock's top (last)
card and appends it to the waste, touching nothing else; on an empty stock
with non-empty waste the stock becomes the waste reversed (so the bottom of
the old waste is the top of the new stock) and the waste is cleared; with
both empty the state is returned unchanged — there is no failure case. -/
theorem drawFromStock_cases (s : GameState) :
    (s.stock ≠ [] → ∃ c, s.stock.getLast? = some c ∧
      drawFromStock s = { s with stock := s.stock.dropLast, waste := s.waste ++ [c] }) ∧
    (s.stock = [] → s.waste ≠ [] →
      drawFromStock s = { s with stock := s.waste.reverse, waste := [] } ∧
      (drawFromStock s).stock.getLast? = s.waste.head?) ∧
    (s.stock = [] → s.waste = [] → drawFromStock s = s) := by
  refine ⟨?_, ?_, ?_⟩
  · intro h
    refine ⟨s.stock.getLast h, List.getLast?_eq_getLast s.stock h, ?_⟩
    rw [drawFromStock, List.getLast?_eq_getLast s.stock h]
  · intro hs hw
    have hw' : s.waste.length > 0 := List.length_pos.mpr hw
    have : s.stock.getLast? = none := by rw [hs]; rfl
    constructor
    · rw [drawFromStock, this, if_pos hw']
    · rw [drawFromStock, this, if_pos hw']
      exact List.getLast?_reverse s.waste
  · intro hs hw
    have : s.stock.getLast? = none := by rw [hs]; rfl
    rw [drawFromStock, this, if_neg (by rw [hw]; simp)]

/-- Sample cards for concrete witness states. -/
def aceHearts : CardData := mkCard .hearts .A

def twoHearts : CardData := mkCard .hearts .n2

/-- Witness for C6: the three cases of `drawFromStock_cases` evaluated at
concrete states. -/
theorem drawFromStock_cases_witness :
    drawFromStock { tableau := [], foundation := [], stock := [aceHearts], waste := [] }
        = { tableau := [], foundation := [], stock := [], waste := [aceHearts] } ∧
      drawFromStock { tableau := [], foundation := [], stock := [], waste := [aceHearts, twoHearts] }
        = { tableau := [], foundation := [], stock := [twoHearts, aceHearts], waste := [] } ∧
      drawFromStock { tableau := [], foundation := [], stock := [], waste := [] }
        = { tableau := [], foundation := [], stock := [], waste := [] } := by
  refine ⟨?_, ?_, ?_⟩
  · obtain ⟨c, hc, heq⟩ :=
      (drawFromStock_cases
        { tableau := [], foundation := [], stock := [aceHearts], waste := [] }).1
        (by simp)
    obtain rfl : c = aceHearts := by
      simp only [List.getLast?_singleton, Option.some.injEq] at hc
      exact hc.symm
    exact heq
  · exact ((drawFromStock_cases
      { tableau := [], foundation := [], stock := [], waste := [aceHearts, twoHearts] }).2.1
      rfl (by simp)).1
  · exact (drawFromStock_cases
      { tableau := [], foundation := [], stock := [], waste := [] }).2.2 rfl rfl

/-! ### C1: card conservation -/

/-- `cardsOf` as a sum of the four regions. -/
lemma cardsOf_eq (s : GameState) :
    cardsOf s = (↑(s.tableau.map TableauPile.cards).flatten : Multiset CardData) +
      ↑s.foundation.flatten + ↑s.stock + ↑s.waste := by
  simp only [cardsOf, cardsOfList, ← Multiset.coe_add]

/-- Replacing one tableau pile exchanges the old pile's cards for the new
pile's cards in the state's card multiset. -/
lemma cards_set_tableau (s : GameState) (i : Nat) (p pile : TableauPile)
    (h : s.tableau[i]? = some pile) :
    cardsOf { s with tableau := s.tableau.set i p } + ↑pile.cards = cardsOf s + ↑p.cards := by
  obtain ⟨hi, hget⟩ := List.getElem?_eq_some_iff.mp h
  have hi' : i < (s.tableau.map TableauPile.cards).length := by
    rw [List.length_map]; exact hi
  have key := coe_flatten_set_add (s.tableau.map TableauPile.cards) i p.cards hi'
  rw [List.getElem_map, hget] at key
  rw [cardsOf_eq, cardsOf_eq]
  simp only [List.map_set]
  show (↑((s.tableau.map TableauPile.cards).set i p.cards).flatten : Multiset CardData) +
      ↑s.foundation.flatten + ↑s.stock + ↑s.waste + ↑pile.cards = _
  calc (↑((s.tableau.map TableauPile.cards).set i p.cards).flatten : Multiset CardData) +
        ↑s.foundation.flatten + ↑s.stock + ↑s.waste + ↑pile.cards
      = (↑((s.tableau.map TableauPile.cards).set i p.cards).flatten : Multiset CardData) +
        ↑pile.cards + (↑s.foundation.flatten + ↑s.stock + ↑s.waste) := by abel
    _ = (↑(s.tableau.map TableauPile.cards).flatten : Multiset CardData) + ↑p.cards +
        (↑s.foundation.flatten + ↑s.stock + ↑s.waste) := by rw [key]
    _ = _ := by abel

/-- Replacing one foundation pile exchanges the old pile's cards for the
new pile's cards in the state's card multiset. -/
lemma cards_set_foundation (s : GameState) (i : Nat) (x old : List CardData)
    (h : s.foundation[i]? = some old) :
    cardsOf { s with foundation := s.foundation.set i x } + ↑old = cardsOf s + ↑x := by
  obtain ⟨hi, hget⟩ := List.getElem?_eq_some_iff.mp h
  have key := coe_flatten_set_add s.foundation i x hi
  rw [hget] at key
  rw [cardsOf_eq, cardsOf_eq]
  show (↑(s.tableau.map TableauPile.cards).flatten : Multiset CardData) +
      ↑(s.foundation.set i x).flatten + ↑s.stock + ↑s.waste + ↑old = _
  calc (↑(s.tableau.map TableauPile.cards).flatten : Multiset CardData) +
        ↑(s.foundation.set i x).flatten + ↑s.stock + ↑s.waste + ↑old
      = (↑(s.tableau.map TableauPile.cards).flatten : Multiset CardData) +
        (↑(s.foundation.set i x).flatten + ↑old) + ↑s.stock + ↑s.waste := by abel
    _ = (↑(s.tableau.map TableauPile.cards).flatten : Multiset CardData) +
        (↑s.foundation.flatten + ↑x) + ↑s.stock + ↑s.waste := by rw [key]
    _ = _ := by abel

/-- Splicing out the suffix that starts at `idx` leaves the prefix before
`idx`. -/
lemma spliceOut_drop (l : List CardData) (idx : Nat) :
    spliceOut l idx (l.drop idx).length = l.take idx := by
  rw [spliceOut, List.length_drop]
  rw [List.drop_eq_nil_of_le (by omega), List.append_nil]

/-- A run accepted by `canPlaceOnFoundation` has exactly one card. -/
lemma canPlaceOnFoundation_single (cards targetPile : List CardData)
    (h : canPlaceOnFoundation cards targetPile = true) : ∃ c, cards = [c] := by
  match cards with
  | [c] => exact ⟨c, rfl⟩
  | [] => exact absurd h (by simp [canPlaceOnFoundation])
  | a :: b :: rest => exact absurd h (by simp [canPlaceOnFoundation])

/-- The `faceUpCount` the source pile is left with by the removal step of
`handleDrop` (the let-chain of the tableau branch of `removeFromSource`,
named so that lemmas can speak about the resulting pile). -/
def removedFaceUpCount (pile : TableauPile) (cardIndex numCardsBeingMoved : Nat) : Int :=
  let isFaceUp : Bool := (cardIndex : Int) ≥ (pile.cards.length : Int) - pile.faceUpCount
  let fc1 : Int :=
    if isFaceUp && pile.faceUpCount > 0 then
      let d := pile.faceUpCount - (numCardsBeingMoved : Int)
      if d < 0 then 0 else d
    else pile.faceUpCount
  if (spliceOut pile.cards cardIndex numCardsBeingMoved).length > 0 && fc1 == 0 then 1
  else fc1

/-- Characterization of the tableau branch of `removeFromSource`. -/
lemma removeFromSource_tableau_eq (s : GameState) (col idx : Nat)
    (cards : List CardData) (pile : TableauPile) (hp : s.tableau[col]? = some pile) :
    removeFromSource s { source := .tableau col idx, cards := cards } =
      some ⟨s.tableau.set col ⟨spliceOut pile.cards idx cards.length,
        removedFaceUpCount pile idx cards.length⟩, s.foundation, s.stock, s.waste⟩ := by
  rw [removeFromSource]
  dsimp only
  rw [hp]
  rfl

/-- The removal step of `handleDrop` takes exactly the dragged cards out of
the state's card multiset, for a well-formed drag. -/
lemma removeFromSource_conserves (s s1 : GameState) (drag : Drag)
    (hwf : dragWellFormed s drag) (h : removeFromSource s drag = some s1) :
    cardsOf s1 + ↑drag.cards = cardsOf s := by
  obtain ⟨src, cards⟩ := drag
  cases src with
  | waste =>
    obtain ⟨c, hlast, hcards⟩ := hwf
    replace hcards : cards = [c] := hcards
    rw [removeFromSource] at h
    obtain rfl : { s with waste := s.waste.dropLast } = s1 := by injection h
    have hne : s.waste ≠ [] := by
      intro he
      rw [he] at hlast
      exact absurd hlast (by simp)
    have hdecomp : s.waste.dropLast ++ [c] = s.waste := by
      have hd := List.dropLast_append_getLast hne
      rw [List.getLast?_eq_getLast s.waste hne, Option.some.injEq] at hlast
      rw [hlast] at hd
      exact hd
    show cardsOf { s with waste := s.waste.dropLast } + ↑cards = cardsOf s
    rw [hcards, cardsOf_eq, cardsOf_eq]
    conv_rhs => rw [← hdecomp]
    simp only [← Multiset.coe_add]
    abel
  | tableau col idx =>
    obtain ⟨pile, hp, hcards⟩ := hwf
    replace hcards : cards = pile.cards.drop idx := hcards
    rw [removeFromSource_tableau_eq s col idx cards pile hp] at h
    obtain rfl : _ = s1 := by injection h
    show cardsOf ⟨s.tableau.set col ⟨spliceOut pile.cards idx cards.length,
      removedFaceUpCount pile idx cards.length⟩, s.foundation, s.stock, s.waste⟩ +
      ↑cards = cardsOf s
    have hsplice : spliceOut pile.cards idx cards.length = pile.cards.take idx := by
      rw [hcards]; exact spliceOut_drop pile.cards idx
    have key := cards_set_tableau s col
      ⟨spliceOut pile.cards idx cards.length,
        removedFaceUpCount pile idx cards.length⟩ pile hp
    have hdecomp : (↑pile.cards : Multiset CardData) =
        ↑(pile.cards.take idx) + ↑cards := by
      rw [hcards, Multiset.coe_add, List.take_append_drop]
    rw [hdecomp, add_comm (↑(pile.cards.take idx) : Multiset CardData) ↑cards,
      ← add_assoc] at key
    simp only [hsplice] at key ⊢
    exact add_right_cancel key

/-- Characterization of the tableau branch of `addToDest`. -/
lemma addToDest_tableau_eq (s : GameState) (cards : List CardData) (i : Nat)
    (pile : TableauPile) (hp : s.tableau[i]? = some pile) :
    addToDest s cards (.tableau i) =
      some ⟨s.tableau.set i ⟨pile.cards ++ cards, pile.faceUpCount + (cards.length : Int)⟩,
        s.foundation, s.stock, s.waste⟩ := by
  rw [addToDest, hp]
  rfl

/-- Characterization of the foundation branch of `addToDest`. -/
lemma addToDest_foundation_eq (s : GameState) (cards : List CardData) (c : CardData)
    (i : Nat) (f : List CardData) (hc : cards.head? = some c)
    (hf : s.foundation[i]? = some f) :
    addToDest s cards (.foundation i) =
      some ⟨s.tableau, s.foundation.set i (f ++ [c]), s.stock, s.waste⟩ := by
  rw [addToDest, hf]
  show (cards.head?.map _) = _
  rw [hc]
  rfl

/-- The insertion step of `handleDrop` adds exactly the dragged cards to the
state's card multiset (for a foundation destination this needs the run to be
the single card the validator enforces). -/
lemma addToDest_conserves (s1 s2 : GameState) (cards : List CardData) (zone : ZoneRef)
    (hsingle : ∀ i, zone = .foundation i → ∃ c, cards = [c])
    (h : addToDest s1 cards zone = some s2) :
    cardsOf s2 = cardsOf s1 + ↑cards := by
  cases zone with
  | tableau i =>
    rw [addToDest] at h
    obtain ⟨pile, hp, heq⟩ := Option.map_eq_some'.mp h
    obtain rfl := heq.symm
    have key := cards_set_tableau s1 i
      ⟨pile.cards ++ cards, pile.faceUpCount + (cards.length : Int)⟩ pile hp
    rw [show ((⟨pile.cards ++ cards, pile.faceUpCount + (cards.length : Int)⟩ :
        TableauPile)).cards = pile.cards ++ cards from rfl] at key
    rw [← Multiset.coe_add, ← add_assoc, add_right_comm] at key
    exact add_right_cancel key
  | foundation i =>
    obtain ⟨c, rfl⟩ := hsingle i rfl
    rw [addToDest] at h
    obtain ⟨f, hf, heq⟩ := Option.bind_eq_some.mp h
    rw [show ([c].head?.map fun c0 =>
        ({ s1 with foundation := s1.foundation.set i (f ++ [c0]) } : GameState)) =
        some { s1 with foundation := s1.foundation.set i (f ++ [c]) } from rfl] at heq
    obtain rfl : { s1 with foundation := s1.foundation.set i (f ++ [c]) } = s2 := by
      injection heq
    have key := cards_set_foundation s1 i (f ++ [c]) f hf
    rw [← Multiset.coe_add, ← add_assoc, add_right_comm] at key
    exact add_right_cancel key

/-- `dropIsValid` on a foundation zone only accepts single-card runs. -/
lemma dropIsValid_foundation_single (s : GameState) (cards : List CardData) (i : Nat)
    (h : dropIsValid s cards (.foundation i) = some true) : ∃ c, cards = [c] := by
  rw [dropIsValid] at h
  obtain ⟨f, hf, hv⟩ := Option.map_eq_some'.mp h
  exact canPlaceOnFoundation_single cards f hv

/-- `cardsOfList` written out on an explicit state. -/
lemma cardsOfList_mk (t : List TableauPile) (f : List (List CardData)) (st w : List CardData) :
    cardsOfList ⟨t, f, st, w⟩ = (t.map TableauPile.cards).flatten ++ f.flatten ++ st ++ w := rfl

/-- C1.  Card conservation: `createDeck` holds exactly one card per
(suit, rank) pair, 52 in total; `dealCards` distributes exactly that full
deck across the state; and both `handleDrop` (with the drag built by the
gesture layer) and `drawFromStock` preserve the state's card multiset, so a
state holding one full deck still holds one full deck afterwards. -/
theorem card_conservation :
    (∀ (su : Suit) (r : Rank),
      (createDeck.filter fun c => c.suit == su && c.rank == r).length = 1) ∧
    createDeck.length = 52 ∧
    (∀ rand : Nat → Nat, isFullDeck (dealCards rand)) ∧
    (∀ (s : GameState) (drag : Drag) (zone : ZoneRef) (s1 : GameState),
      isFullDeck s → dragWellFormed s drag → handleDrop s drag zone = some s1 →
      isFullDeck s1) ∧
    (∀ s : GameState, isFullDeck s → isFullDeck (drawFromStock s)) := by
  refine ⟨?_, by decide, ?_, ?_, ?_⟩
  · intro su r
    cases su <;> cases r <;> decide
  · intro rand
    rw [isFullDeck, dealCards_eq, cardsOf, cardsOfList_mk, Multiset.coe_eq_coe]
    have he : (((dealPiles (shuffleDeck createDeck rand) [1, 2, 3, 4, 5, 6, 7]).1.map
        TableauPile.cards).flatten ++ ([[], [], [], []] : List (List CardData)).flatten ++
        (dealPiles (shuffleDeck createDeck rand) [1, 2, 3, 4, 5, 6, 7]).2 ++ []) =
        ((dealPiles (shuffleDeck createDeck rand) [1, 2, 3, 4, 5, 6, 7]).1.map
        TableauPile.cards).flatten ++
        (dealPiles (shuffleDeck createDeck rand) [1, 2, 3, 4, 5, 6, 7]).2 := by
      simp
    rw [he, dealPiles_flatten]
    exact (shuffleDeck_perm createDeck rand).2.1
  · intro s drag zone s1 hs hwf h
    rw [handleDrop] at h
    cases hv : dropIsValid s drag.cards zone with
    | none => rw [hv] at h; exact absurd h (by simp)
    | some b =>
      cases b with
      | false =>
        rw [hv] at h
        obtain rfl : s = s1 := by injection h
        exact hs
      | true =>
        rw [hv] at h
        obtain ⟨smid, hrem, hadd⟩ := Option.bind_eq_some.mp h
        have hsingle : ∀ i, zone = .foundation i → ∃ c, drag.cards = [c] := by
          intro i hz
          rw [hz] at hv
          exact dropIsValid_foundation_single s drag.cards i hv
        have h1 := removeFromSource_conserves s smid drag hwf hrem
        have h2 := addToDest_conserves smid s1 drag.cards zone hsingle hadd
        rw [isFullDeck] at hs ⊢
        rw [h2, h1, hs]
  · intro s hs
    rw [isFullDeck] at hs ⊢
    rw [← hs]
    cases hst : s.stock.getLast? with
    | some c =>
      rw [drawFromStock, hst]
      have hne : s.stock ≠ [] := by
        intro he
        rw [he] at hst
        exact absurd hst (by simp)
      have hdecomp : s.stock.dropLast ++ [c] = s.stock := by
        have hd := List.dropLast_append_getLast hne
        rw [List.getLast?_eq_getLast s.stock hne, Option.some.injEq] at hst
        rw [hst] at hd
        exact hd
      rw [cardsOf_eq, cardsOf_eq]
      conv_rhs => rw [← hdecomp]
      simp only [← Multiset.coe_add]
      abel
    | none =>
      rw [drawFromStock, hst]
      by_cases hw : s.waste.length > 0
      · rw [if_pos hw]
        have hse : s.stock = [] := List.getLast?_eq_none_iff.mp hst
        rw [cardsOf_eq, cardsOf_eq, hse]
        rw [Multiset.coe_reverse]
        simp
      · rw [if_neg hw]

/-- A king used in concrete witness states. -/
def kingHearts : CardData := mkCard .hearts .K

/-- A concrete full-deck state with the king of hearts alone on tableau
pile 0, six empty piles, and all other cards in the stock. -/
def exConserve : GameState :=
  { tableau := [⟨[kingHearts], 1⟩, ⟨[], 0⟩, ⟨[], 0⟩, ⟨[], 0⟩, ⟨[], 0⟩, ⟨[], 0⟩, ⟨[], 0⟩]
    foundation := [[], [], [], []]
    stock := createDeck.erase kingHearts
    waste := [] }

/-- Dragging the king of hearts (the whole face-up suffix of pile 0). -/
def exConserveDrag : Drag := { source := .tableau 0 0, cards := [kingHearts] }

/-- `exConserve` holds exactly one full deck. -/
lemma exConserve_isFullDeck : isFullDeck exConserve := by
  have hmem : kingHearts ∈ createDeck := by decide
  have h1 : cardsOfList exConserve = kingHearts :: createDeck.erase kingHearts := by
    simp [exConserve, cardsOfList]
  rw [isFullDeck, cardsOf, h1, Multiset.coe_eq_coe]
  exact (List.perm_cons_erase hmem).symm

/-- Witness for C1: the conservation theorem applied at a concrete deal, a
concrete valid move (the king of hearts onto the empty pile 1), and a
concrete draw. -/
theorem card_conservation_witness :
    isFullDeck (dealCards fun _ => 0) ∧
      isFullDeck ((handleDrop exConserve exConserveDrag (ZoneRef.tableau 1)).getD exConserve) ∧
      isFullDeck (drawFromStock (dealCards fun _ => 0)) := by
  refine ⟨card_conservation.2.2.1 _, ?_, card_conservation.2.2.2.2 _ (card_conservation.2.2.1 _)⟩
  refine card_conservation.2.2.2.1 exConserve exConserveDrag (ZoneRef.tableau 1) _
    exConserve_isFullDeck ⟨⟨[kingHearts], 1⟩, rfl, rfl⟩ ?_
  rfl

/-! ### C8: applyMove transfer postcondition -/

/-- C8.  For a valid move: a waste source pops exactly one card, its top,
and changes nothing else; a tableau source splices exactly `run.length`
cards out at the run's index, so with the run built as the pile's suffix
the old pile is the new pile's cards followed by the run; a tableau
destination has the run appended and its `faceUpCount` increased by the
run's length; a foundation destination has the single card appended; and a
valid `handleDrop` is exactly this removal followed by this insertion (a
valid foundation drop always carries a single-card run). -/
theorem applyMove_transfer :
    (∀ (s s1 : GameState) (cards : List CardData),
      removeFromSource s { source := .waste, cards := cards } = some s1 →
      s1 = { s with waste := s.waste.dropLast }) ∧
    (∀ (s : GameState) (col idx : Nat) (cards : List CardData) (pile : TableauPile)
      (s1 : GameState), s.tableau[col]? = some pile → cards = pile.cards.drop idx →
      removeFromSource s { source := .tableau col idx, cards := cards } = some s1 →
      ∃ p1 : TableauPile, s1 = { s with tableau := s.tableau.set col p1 } ∧
        p1.cards = pile.cards.take idx ∧ pile.cards = p1.cards ++ cards) ∧
    (∀ (s : GameState) (cards : List CardData) (i : Nat) (pile : TableauPile)
      (s2 : GameState), s.tableau[i]? = some pile →
      addToDest s cards (.tableau i) = some s2 →
      s2 = ⟨s.tableau.set i ⟨pile.cards ++ cards, pile.faceUpCount + (cards.length : Int)⟩,
        s.foundation, s.stock, s.waste⟩) ∧
    (∀ (s : GameState) (c : CardData) (i : Nat) (f : List CardData) (s2 : GameState),
      s.foundation[i]? = some f → addToDest s [c] (.foundation i) = some s2 →
      s2 = { s with foundation := s.foundation.set i (f ++ [c]) }) ∧
    (∀ (s : GameState) (drag : Drag) (zone : ZoneRef) (s1 : GameState),
      dropIsValid s drag.cards zone = some true → handleDrop s drag zone = some s1 →
      ∃ smid, removeFromSource s drag = some smid ∧
        addToDest smid drag.cards zone = some s1) ∧
    (∀ (s : GameState) (cards : List CardData) (i : Nat),
      dropIsValid s cards (.foundation i) = some true → ∃ c, cards = [c]) := by
  refine ⟨?_, ?_, ?_, ?_, ?_, ?_⟩
  · intro s s1 cards h
    rw [removeFromSource] at h
    exact (by injection h : _ = s1).symm
  · intro s col idx cards pile s1 hp hcards h
    rw [removeFromSource_tableau_eq s col idx cards pile hp] at h
    obtain rfl : _ = s1 := by injection h
    have hsplice : spliceOut pile.cards idx cards.length = pile.cards.take idx := by
      rw [hcards]
      exact spliceOut_drop pile.cards idx
    refine ⟨⟨spliceOut pile.cards idx cards.length,
      removedFaceUpCount pile idx cards.length⟩, rfl, hsplice, ?_⟩
    rw [hsplice, hcards, List.take_append_drop]
  · intro s cards i pile s2 hp h
    rw [addToDest_tableau_eq s cards i pile hp] at h
    exact (by injection h : _ = s2).symm
  · intro s c i f s2 hf h
    rw [addToDest_foundation_eq s [c] c i f rfl hf] at h
    exact (by injection h : _ = s2).symm
  · intro s drag zone s1 hv h
    rw [handleDrop, hv] at h
    exact Option.bind_eq_some.mp h
  · intro s cards i hv
    exact dropIsValid_foundation_single s cards i hv

/-- A small state with one card in the waste, for concrete witnesses. -/
def exWaste : GameState :=
  { tableau := [], foundation := [[], [], [], []], stock := [], waste := [aceHearts] }

/-- Witness for C8: the transfer postconditions evaluated at concrete
states — popping the ace of hearts from the waste, the decomposition of a
valid drop of the king of hearts onto an empty pile, and the
single-card-run fact for a valid foundation drop. -/
theorem applyMove_transfer_witness :
    (({ tableau := [], foundation := [[], [], [], []], stock := [],
        waste := [] } : GameState) = { exWaste with waste := exWaste.waste.dropLast }) ∧
      (∃ smid, removeFromSource exConserve exConserveDrag = some smid ∧
        addToDest smid exConserveDrag.cards (ZoneRef.tableau 1) =
          some ((handleDrop exConserve exConserveDrag (ZoneRef.tableau 1)).getD exConserve)) ∧
      (∃ c, ([aceHearts] : List CardData) = [c]) := by
  refine ⟨?_, ?_, ?_⟩
  · exact applyMove_transfer.1 exWaste _ [aceHearts] rfl
  · exact applyMove_transfer.2.2.2.2.1 exConserve exConserveDrag (ZoneRef.tableau 1) _ rfl rfl
  · exact applyMove_transfer.2.2.2.2.2 exWaste [aceHearts] 0 rfl

/-! ### C3: reveal-on-empty invariant -/

/-- Bounds on the `faceUpCount` left by the removal step, when the run is
the pile's suffix from `idx`, that suffix is face-up, and the pile's
counter was within bounds: the new counter lies between 0 and the new
length `idx`, and is at least 1 when cards remain. -/
lemma removedFaceUpCount_bounds (pile : TableauPile) (idx : Nat)
    (hidx : idx < pile.cards.length)
    (hfaceup : (idx : Int) ≥ (pile.cards.length : Int) - pile.faceUpCount)
    (hinv0 : 0 ≤ pile.faceUpCount)
    (hinv1 : pile.faceUpCount ≤ (pile.cards.length : Int)) :
    0 ≤ removedFaceUpCount pile idx (pile.cards.length - idx) ∧
      removedFaceUpCount pile idx (pile.cards.length - idx) ≤ (idx : Int) ∧
      (0 < idx → 1 ≤ removedFaceUpCount pile idx (pile.cards.length - idx)) := by
  have hn : (pile.cards.drop idx).length = pile.cards.length - idx := by
    rw [List.length_drop]
  have hlen : (spliceOut pile.cards idx (pile.cards.length - idx)).length = idx := by
    rw [← hn, spliceOut_drop, List.length_take]
    omega
  have hfc : 0 < pile.faceUpCount := by
    rcases lt_or_eq_of_le hinv0 with h | h
    · exact h
    · exfalso; omega
  rw [removedFaceUpCount]
  simp only [hlen]
  split_ifs with h1 h2 h3 h4 h5 <;>
    simp only [Bool.and_eq_true, decide_eq_true_eq, beq_iff_eq] at * <;>
    omega

/-- C3.  Reveal-on-empty: a valid `handleDrop` from a tableau pile (the
drag built by the gesture layer from the pile's face-up suffix, the pile's
counter within bounds) leaves that pile with `0 ≤ faceUpCount ≤ length`,
and with `faceUpCount ≥ 1` whenever cards remain — the clamp keeps it from
going negative and the auto-flip reveals the new top card. -/
theorem reveal_on_empty (s : GameState) (col idx : Nat) (cards : List CardData)
    (zone : ZoneRef) (s1 : GameState) (pile : TableauPile)
    (hpile : s.tableau[col]? = some pile)
    (hcards : cards = pile.cards.drop idx)
    (hfaceup : (idx : Int) ≥ (pile.cards.length : Int) - pile.faceUpCount)
    (hinv0 : 0 ≤ pile.faceUpCount)
    (hinv1 : pile.faceUpCount ≤ (pile.cards.length : Int))
    (hvalid : dropIsValid s cards zone = some true)
    (hdrop : handleDrop s { source := .tableau col idx, cards := cards } zone = some s1) :
    ∃ p1 : TableauPile, s1.tableau[col]? = some p1 ∧
      0 ≤ p1.faceUpCount ∧ p1.faceUpCount ≤ (p1.cards.length : Int) ∧
      (p1.cards ≠ [] → 1 ≤ p1.faceUpCount) := by
  have hcol : col < s.tableau.length := (List.getElem?_eq_some_iff.mp hpile).1
  -- a validated run is non-empty, so the suffix starts inside the pile
  have hne : cards ≠ [] := by
    cases zone with
    | tableau i =>
      rw [dropIsValid] at hvalid
      obtain ⟨target, ht, hv⟩ := Option.bind_eq_some.mp hvalid
      intro he
      rw [he] at hv
      exact absurd hv (by rw [canPlaceOnTableau]; simp)
    | foundation i =>
      obtain ⟨c, rfl⟩ := dropIsValid_foundation_single s cards i hvalid
      simp
  have hidx : idx < pile.cards.length := by
    by_contra hge
    rw [hcards] at hne
    exact hne (List.drop_eq_nil_of_le (by omega))
  have hnlen : cards.length = pile.cards.length - idx := by
    rw [hcards, List.length_drop]
  -- the state after removal
  rw [handleDrop, hvalid] at hdrop
  obtain ⟨smid, hrem, hadd⟩ := Option.bind_eq_some.mp hdrop
  rw [removeFromSource_tableau_eq s col idx cards pile hpile] at hrem
  obtain rfl : _ = smid := by injection hrem
  have hsplice : spliceOut pile.cards idx cards.length = pile.cards.take idx := by
    rw [hcards]
    exact spliceOut_drop pile.cards idx
  have htake : (pile.cards.take idx).length = idx := by
    rw [List.length_take]
    omega
  have hbounds := removedFaceUpCount_bounds pile idx hidx hfaceup hinv0 hinv1
  rw [← hnlen] at hbounds
  have hmid : (s.tableau.set col
      ⟨spliceOut pile.cards idx cards.length, removedFaceUpCount pile idx cards.length⟩)[col]?
      = some ⟨spliceOut pile.cards idx cards.length, removedFaceUpCount pile idx cards.length⟩ := by
    rw [List.getElem?_set]
    rw [if_pos rfl, if_pos hcol]
  cases zone with
  | foundation i =>
    rw [addToDest] at hadd
    obtain ⟨f, hf, heq⟩ := Option.bind_eq_some.mp hadd
    obtain ⟨c, hc, heq2⟩ := Option.map_eq_some'.mp heq
    obtain rfl : _ = s1 := heq2
    refine ⟨⟨spliceOut pile.cards idx cards.length, removedFaceUpCount pile idx cards.length⟩,
      hmid, hbounds.1, ?_, ?_⟩
    · rw [hsplice, htake]
      exact hbounds.2.1
    · intro hne1
      rw [hsplice] at hne1
      have : 0 < idx := by
        by_contra h0
        rw [Nat.eq_zero_of_not_pos h0] at hne1
        exact hne1 rfl
      exact hbounds.2.2 this
  | tableau i =>
    rw [addToDest] at hadd
    obtain ⟨target, ht, heq⟩ := Option.map_eq_some'.mp hadd
    obtain rfl : _ = s1 := heq
    by_cases hic : i = col
    · subst hic
      rw [hmid, Option.some.injEq] at ht
      refine ⟨⟨target.cards ++ cards, target.faceUpCount + (cards.length : Int)⟩, ?_, ?_, ?_, ?_⟩
      · show ((s.tableau.set i _).set i _)[i]? = _
        rw [List.getElem?_set]
        rw [if_pos rfl, if_pos (by simp only [List.length_set]; exact hcol)]
      · have h1 : 0 ≤ target.faceUpCount := by rw [← ht]; exact hbounds.1
        have h2 : (0 : Int) ≤ (cards.length : Int) := by positivity
        show 0 ≤ target.faceUpCount + (cards.length : Int)
        omega
      · show target.faceUpCount + (cards.length : Int) ≤ ((target.cards ++ cards).length : Int)
        rw [List.length_append]
        have h1 : target.faceUpCount ≤ (target.cards.length : Int) := by
          rw [← ht]
          show removedFaceUpCount pile idx cards.length ≤
            ((spliceOut pile.cards idx cards.length : List CardData).length : Int)
          rw [hsplice, htake]
          exact hbounds.2.1
        push_cast
        omega
      · intro hne1
        have h1 : 0 ≤ target.faceUpCount := by rw [← ht]; exact hbounds.1
        have h2 : 0 < cards.length := List.length_pos.mpr hne
        show 1 ≤ target.faceUpCount + (cards.length : Int)
        omega
    · refine ⟨⟨spliceOut pile.cards idx cards.length, removedFaceUpCount pile idx cards.length⟩,
        ?_, hbounds.1, ?_, ?_⟩
      · show ((s.tableau.set col _).set i _)[col]? = _
        rw [List.getElem?_set_ne hic]
        exact hmid
      · rw [hsplice, htake]
        exact hbounds.2.1
      · intro hne1
        rw [hsplice] at hne1
        have : 0 < idx := by
          by_contra h0
          rw [Nat.eq_zero_of_not_pos h0] at hne1
          exact hne1 rfl
        exact hbounds.2.2 this

/-- Witness for C3: the reveal invariant evaluated at the concrete move of
the king of hearts off pile 0 of `exConserve`. -/
theorem reveal_on_empty_witness :
    ∃ p1 : TableauPile,
      ((handleDrop exConserve exConserveDrag (ZoneRef.tableau 1)).getD
        exConserve).tableau[0]? = some p1 ∧
      0 ≤ p1.faceUpCount ∧ p1.faceUpCount ≤ (p1.cards.length : Int) ∧
      (p1.cards ≠ [] → 1 ≤ p1.faceUpCount) :=
  reveal_on_empty exConserve 0 0 [kingHearts] (ZoneRef.tableau 1) _ ⟨[kingHearts], 1⟩
    rfl rfl (by decide) (by decide) (by decide) rfl rfl

/-! ### C2: win detection -/

/-- The win condition exactly as claim C2 words it: either the four
foundation piles together hold all 52 cards, or every tableau pile has
`faceUpCount` equal to its length and both stock and waste are empty. -/
def checkWinClaim (s : GameState) : Prop :=
  ((s.foundation.flatten : Multiset CardData) = (createDeck : Multiset CardData)) ∨
    ((∀ pile ∈ s.tableau, pile.faceUpCount = (pile.cards.length : Int)) ∧
      s.stock = [] ∧ s.waste = [])

/-- A full-deck state with all 52 cards face-up on pile 0, pile 1 empty but
with a stale `faceUpCount = 1`, stock and waste empty.  The code's win
check accepts it (an empty pile passes the `length === 0` short-circuit),
the claim's condition (b) rejects it (`1 ≠ 0`), and condition (a) fails
(the foundations are empty). -/
def exWinCex : GameState :=
  { tableau := [⟨createDeck, 52⟩, ⟨[], 1⟩, ⟨[], 0⟩, ⟨[], 0⟩, ⟨[], 0⟩, ⟨[], 0⟩, ⟨[], 0⟩]
    foundation := [[], [], [], []]
    stock := []
    waste := [] }

/-- Counterexample for C2 as stated: at `exWinCex` the code's win check
returns true while the claim's right-hand side is false, so the claimed
equivalence fails (even on a state holding exactly one full deck). -/
theorem checkWin_claim_counterexample :
    checkWin exWinCex = true ∧ ¬ checkWinClaim exWinCex ∧ isFullDeck exWinCex := by
  refine ⟨by decide, ?_, ?_⟩
  · rintro (ha | ⟨hb, _, _⟩)
    · have hc := congrArg Multiset.card ha
      rw [Multiset.coe_card, Multiset.coe_card] at hc
      rw [show (exWinCex.foundation.flatten).length = 0 from rfl] at hc
      rw [show createDeck.length = 52 from by decide] at hc
      exact absurd hc (by omega)
    · have hmem : (⟨[], 1⟩ : TableauPile) ∈ exWinCex.tableau := by
        rw [exWinCex]
        simp
      have := hb ⟨[], 1⟩ hmem
      simp at this
  · have h1 : cardsOfList exWinCex = createDeck := by
      simp [exWinCex, cardsOfList]
    rw [isFullDeck, cardsOf, h1]

/-- `foldl` of length-accumulation is the sum of the lengths. -/
lemma foldl_length_sum :
    ∀ (L : List (List CardData)) (n : Nat),
      L.foldl (fun sum pile => sum + pile.length) n = n + (L.map List.length).sum
  | [], n => by simp
  | l :: rest, n => by
    rw [List.foldl_cons, foldl_length_sum rest (n + l.length)]
    simp only [List.map_cons, List.sum_cons]
    omega

/-- C2 (amended).  On a state holding exactly one full deck, `checkWin`
returns true iff either all 52 cards sit in the foundations, or every
tableau pile is empty or has `faceUpCount` equal to its length, with stock
and waste both empty.  (The original claim lacked the "empty or" escape for
tableau piles; the code's `pile.cards.length === 0 ||` short-circuit makes
an empty pile pass regardless of its `faceUpCount`.)  The check reads the
state and mutates nothing, which in this embedding holds by construction. -/
theorem checkWin_iff (s : GameState) (hfd : isFullDeck s) :
    checkWin s = true ↔
      (((s.foundation.flatten : Multiset CardData) = (createDeck : Multiset CardData)) ∨
        ((∀ pile ∈ s.tableau, pile.cards = [] ∨ pile.faceUpCount = (pile.cards.length : Int)) ∧
          s.stock = [] ∧ s.waste = [])) := by
  have hcount : s.foundation.foldl (fun sum pile => sum + pile.length) 0
      = s.foundation.flatten.length := by
    rw [foldl_length_sum, List.length_flatten]
    omega
  have hfound : s.foundation.flatten.length = 52 ↔
      (s.foundation.flatten : Multiset CardData) = (createDeck : Multiset CardData) := by
    constructor
    · intro h52
      refine Multiset.eq_of_le_of_card_le ?_ ?_
      · rw [isFullDeck] at hfd
        rw [← hfd, cardsOf_eq]
        calc (↑s.foundation.flatten : Multiset CardData)
            ≤ ↑s.foundation.flatten + (↑(s.tableau.map TableauPile.cards).flatten +
              ↑s.stock + ↑s.waste) := le_add_right (le_refl _)
          _ = ↑(s.tableau.map TableauPile.cards).flatten + ↑s.foundation.flatten +
              ↑s.stock + ↑s.waste := by abel
      · rw [Multiset.coe_card, Multiset.coe_card, h52]
        rw [show createDeck.length = 52 from by decide]
    · intro heq
      have hc := congrArg Multiset.card heq
      rw [Multiset.coe_card, Multiset.coe_card] at hc
      rw [hc]
      decide
  rw [checkWin]
  simp only [hcount]
  by_cases h52 : s.foundation.flatten.length = 52
  · rw [if_pos (by simpa using h52)]
    simp only [true_iff]
    exact Or.inl (hfound.mp h52)
  · rw [if_neg (by simpa using h52)]
    constructor
    · intro h
      simp only [Bool.and_eq_true, List.all_eq_true, Bool.or_eq_true, beq_iff_eq,
        List.length_eq_zero, decide_eq_true_eq] at h
      exact Or.inr ⟨fun pile hm => (h.1 pile hm).imp id id, h.2.1, h.2.2⟩
    · rintro (ha | ⟨hb, hst, hwa⟩)
      · exact absurd (hfound.mpr ha) h52
      · simp only [Bool.and_eq_true, List.all_eq_true, Bool.or_eq_true, beq_iff_eq,
          List.length_eq_zero, decide_eq_true_eq]
        exact ⟨fun pile hm => (hb pile hm).imp id id, hst, hwa⟩

/-- A full-deck state with all 52 cards in foundation pile 0. -/
def exWinFoundation : GameState :=
  { tableau := [⟨[], 0⟩, ⟨[], 0⟩, ⟨[], 0⟩, ⟨[], 0⟩, ⟨[], 0⟩, ⟨[], 0⟩, ⟨[], 0⟩]
    foundation := [createDeck, [], [], []]
    stock := []
    waste := [] }

/-- Witness for the amended C2: the equivalence applied at the concrete
all-in-foundation state. -/
theorem checkWin_iff_witness : checkWin exWinFoundation = true := by
  have hfd : isFullDeck exWinFoundation := by
    have h1 : cardsOfList exWinFoundation = createDeck := by
      simp [exWinFoundation, cardsOfList]
    rw [isFullDeck, cardsOf, h1]
  refine (checkWin_iff exWinFoundation hfd).mpr (Or.inl ?_)
  have h2 : exWinFoundation.foundation.flatten = createDeck := by
    simp [exWinFoundation]
  rw [h2]

/-- Witness for C5: the foundation rule applied at concrete inputs — a
two-card run is rejected, and the two of hearts goes on the ace of
hearts. -/
theorem canPlaceOnFoundation_rule_witness :
    canPlaceOnFoundation [aceHearts, twoHearts] [] = false ∧
      canPlaceOnFoundation [twoHearts] [aceHearts] = true := by
  constructor
  · exact canPlaceOnFoundation_rule.1 [aceHearts, twoHearts] [] (by decide)
  · exact (canPlaceOnFoundation_rule.2 twoHearts [aceHearts]).mpr
      (Or.inr ⟨aceHearts, rfl, rfl, by decide⟩)

end Soltrain
